import Mathlib

/-!
Verification of the mathino/faketensor tape-based autodiff core against its
natural-language specification.

The development shallowly embeds the relevant source code:

* `Pytree` — `mathino/src/tree_util.py` (`flatten_pytree`, `unflatten_pytree`,
  the `_PYTREE_REGISTRY`, and the `TreeDef` structural descriptor).
* `BBack` — `mathino/src/utils.py` (`broadcast_backward`) together with the
  axis-reduction primitive `sum` from
  `mathino/src/functions/primitive_reduct.py`, over a rank-n array model.
* `OpWrap` — the validation logic of `MakeOP.__call__`
  (`mathino/src/base.py`) and `function.__call__` (`faketensor/src/base.py`).
* `Core` — the stateful mathino execution model: the global `TAPE_STACK`,
  `_RECORDING` flag, `tape()` / `no_record()` scopes, `as_nd` re-wrapping,
  the scalar arithmetic primitives, `_backward`, and `grad`
  (`mathino/src/base.py`, `mathino/src/array.py`,
  `mathino/src/autograd/backward.py`).
* `FT` — the faketensor JIT layer: `jit`, `trace_mode`, `JITRecorder`,
  `StaticGraph` replay and the monkey-patched `function.__call__` hook
  (`faketensor/src/jit/api.py`, `faketensor/src/jit/base.py`).
-/

namespace Pytree

/-- Model of a Python value as seen by `flatten_pytree`: an atomic leaf, a
list, a tuple, a dict (string keys, insertion ordered), a dataclass
(class identity as a `Nat` tag, named fields in declaration order), or an
instance of a composite type that may be registered in `_PYTREE_REGISTRY`
(type identity as a `Nat` tag, with the metadata its `flatten_fn` reports). -/
inductive PyT (α : Type) where
  | leaf (a : α)
  | listC (xs : List (PyT α))
  | tupleC (xs : List (PyT α))
  | dictC (kvs : List (String × PyT α))
  | dataC (cls : Nat) (flds : List (String × PyT α))
  | customC (tag : Nat) (meta : Nat) (children : List (PyT α))
  deriving Repr

/-- Model of `TreeDef` from `tree_util.py`: the structural descriptor
produced by `flatten_pytree`.  `TreeDef("leaf", None)` is `leafD`;
`TreeDef(cls, children)` for list/tuple keeps the concrete sequence kind;
`TreeDef(("dict", keys), ...)` keeps the keys; `TreeDef(("dataclass", cls),
...)` keeps field names; `TreeDef((typ, meta), ...)` for a registered type
keeps the type tag and metadata. -/
inductive TD where
  | leafD
  | listD (cs : List TD)
  | tupleD (cs : List TD)
  | dictD (kcs : List (String × TD))
  | dataD (cls : Nat) (kcs : List (String × TD))
  | customD (tag : Nat) (meta : Nat) (cs : List TD)
  deriving Repr

/-- Model of `_PYTREE_REGISTRY`: the set of registered composite type tags.
A registered tag's `flatten_fn` returns the children and metadata stored in
the `customC` constructor, and its `unflatten_fn` rebuilds the same
composite from children and metadata (this is how both `Cell`
registrations in the repository behave). -/
def Registry := List Nat

/-- Membership test mirroring the `isinstance` scan over
`_PYTREE_REGISTRY.items()`. -/
def Registry.mem (r : Registry) (tag : Nat) : Bool :=
  (List.any r (fun t => t == tag))

mutual

/-- Embedding of `flatten_pytree` from `tree_util.py`.  Priority order is
the source order: registry first, then dict, then list/tuple, then
dataclass, otherwise the value itself is a leaf (in particular a `customC`
whose tag is not registered falls through every branch and is returned as
a single leaf). -/
def flattenOne {α : Type} (reg : Registry) : PyT α → List (PyT α) × TD
  | PyT.customC tag meta cs =>
      if Registry.mem reg tag then
        let p := flattenL reg cs
        (p.1, TD.customD tag meta p.2)
      else
        ([PyT.customC tag meta cs], TD.leafD)
  | PyT.dictC kvs =>
      let p := flattenKV reg kvs
      (p.1, TD.dictD p.2)
  | PyT.listC xs =>
      let p := flattenL reg xs
      (p.1, TD.listD p.2)
  | PyT.tupleC xs =>
      let p := flattenL reg xs
      (p.1, TD.tupleD p.2)
  | PyT.dataC cls flds =>
      let p := flattenKV reg flds
      (p.1, TD.dataD cls p.2)
  | PyT.leaf a => ([PyT.leaf a], TD.leafD)

/-- Flattening of a sequence of children, depth first and left to right,
as in the `for c in children` loops of `flatten_pytree`. -/
def flattenL {α : Type} (reg : Registry) : List (PyT α) → List (PyT α) × List TD
  | [] => ([], [])
  | x :: xs =>
      let p := flattenOne reg x
      let q := flattenL reg xs
      (p.1 ++ q.1, p.2 :: q.2)

/-- Flattening of keyed children (dict entries or dataclass fields). -/
def flattenKV {α : Type} (reg : Registry) :
    List (String × PyT α) → List (PyT α) × List (String × TD)
  | [] => ([], [])
  | (k, x) :: xs =>
      let p := flattenOne reg x
      let q := flattenKV reg xs
      (p.1 ++ q.1, (k, p.2) :: q.2)

end

/-- Errors `_unflatten` can raise: `stopIteration` models the
`StopIteration` escaping from `next(it)` when the leaf iterator is
exhausted; `typeError` models the
`TypeError("Unsupported treedef: ...")` raised for a treedef whose type is
not recognized (for example a composite tag absent from the registry). -/
inductive UErr where
  | stopIteration
  | typeError
  deriving Repr

mutual

/-- Embedding of `_unflatten` from `tree_util.py` in state-passing style:
the Python leaf iterator becomes an explicit list that is consumed from
the front, and the pair returned is (rebuilt value, remaining leaves). -/
def unflOne {α : Type} (reg : Registry) :
    TD → List (PyT α) → Except UErr (PyT α × List (PyT α))
  | TD.leafD, ls =>
      match ls with
      | [] => Except.error UErr.stopIteration
      | l :: rest => Except.ok (l, rest)
  | TD.dictD kcs, ls =>
      match unflKV reg kcs ls with
      | Except.error e => Except.error e
      | Except.ok (kvs, rest) => Except.ok (PyT.dictC kvs, rest)
  | TD.listD cs, ls =>
      match unflL reg cs ls with
      | Except.error e => Except.error e
      | Except.ok (xs, rest) => Except.ok (PyT.listC xs, rest)
  | TD.tupleD cs, ls =>
      match unflL reg cs ls with
      | Except.error e => Except.error e
      | Except.ok (xs, rest) => Except.ok (PyT.tupleC xs, rest)
  | TD.dataD cls kcs, ls =>
      match unflKV reg kcs ls with
      | Except.error e => Except.error e
      | Except.ok (flds, rest) => Except.ok (PyT.dataC cls flds, rest)
  | TD.customD tag meta cs, ls =>
      if Registry.mem reg tag then
        match unflL reg cs ls with
        | Except.error e => Except.error e
        | Except.ok (xs, rest) => Except.ok (PyT.customC tag meta xs, rest)
      else
        Except.error UErr.typeError

/-- Rebuilding a sequence of children in order, threading the leaf list. -/
def unflL {α : Type} (reg : Registry) :
    List TD → List (PyT α) → Except UErr (List (PyT α) × List (PyT α))
  | [], ls => Except.ok ([], ls)
  | c :: cs, ls =>
      match unflOne reg c ls with
      | Except.error e => Except.error e
      | Except.ok (x, rest) =>
          match unflL reg cs rest with
          | Except.error e => Except.error e
          | Except.ok (xs, rest2) => Except.ok (x :: xs, rest2)

/-- Rebuilding keyed children in order, threading the leaf list. -/
def unflKV {α : Type} (reg : Registry) :
    List (String × TD) → List (PyT α) →
    Except UErr (List (String × PyT α) × List (PyT α))
  | [], ls => Except.ok ([], ls)
  | (k, c) :: cs, ls =>
      match unflOne reg c ls with
      | Except.error e => Except.error e
      | Except.ok (x, rest) =>
          match unflKV reg cs rest with
          | Except.error e => Except.error e
          | Except.ok (xs, rest2) => Except.ok ((k, x) :: xs, rest2)

end

/-- Embedding of `unflatten_pytree`: runs `_unflatten` on a fresh iterator
over `leaves` and returns only the rebuilt value.  Note that, exactly as
in the source, any leaves left unconsumed by the treedef are silently
discarded: there is no exhaustion check after `_unflatten` returns. -/
def unflatten_pytree {α : Type} (reg : Registry) (leaves : List (PyT α))
    (td : TD) : Except UErr (PyT α) :=
  match unflOne reg td leaves with
  | Except.error e => Except.error e
  | Except.ok (x, _) => Except.ok x

/-- Embedding of `flatten_pytree` at top level. -/
def flatten_pytree {α : Type} (reg : Registry) (x : PyT α) :
    List (PyT α) × TD :=
  flattenOne reg x

mutual

/-- Number of leaf slots a treedef describes (the number of `next(it)`
calls `_unflatten` performs on a successful run). -/
def countSlots : TD → Nat
  | TD.leafD => 1
  | TD.listD cs => countSlotsL cs
  | TD.tupleD cs => countSlotsL cs
  | TD.dictD kcs => countSlotsKV kcs
  | TD.dataD _ kcs => countSlotsKV kcs
  | TD.customD _ _ cs => countSlotsL cs

/-- Leaf slots of a list of child treedefs. -/
def countSlotsL : List TD → Nat
  | [] => 0
  | c :: cs => countSlots c + countSlotsL cs

/-- Leaf slots of keyed child treedefs. -/
def countSlotsKV : List (String × TD) → Nat
  | [] => 0
  | (_, c) :: cs => countSlots c + countSlotsKV cs

end

mutual

/-- Predicate: every composite tag mentioned in the treedef is registered,
so `_unflatten` never hits the unsupported-treedef branch. -/
def wellReg (reg : Registry) : TD → Bool
  | TD.leafD => true
  | TD.listD cs => wellRegL reg cs
  | TD.tupleD cs => wellRegL reg cs
  | TD.dictD kcs => wellRegKV reg kcs
  | TD.dataD _ kcs => wellRegKV reg kcs
  | TD.customD tag _ cs => Registry.mem reg tag && wellRegL reg cs

/-- Registration check over a list of child treedefs. -/
def wellRegL (reg : Registry) : List TD → Bool
  | [] => true
  | c :: cs => wellReg reg c && wellRegL reg cs

/-- Registration check over keyed child treedefs. -/
def wellRegKV (reg : Registry) : List (String × TD) → Bool
  | [] => true
  | (_, c) :: cs => wellReg reg c && wellRegKV reg cs

end

end Pytree

namespace Pytree

mutual

/-- Round trip for one value: unflattening the treedef produced by
`flatten_pytree` from its own leaf list (followed by any extra leaves)
rebuilds exactly the original value and leaves the extras untouched. -/
theorem rtOne {α : Type} (reg : Registry) (x : PyT α) (rest : List (PyT α)) :
    unflOne reg (flattenOne reg x).2 ((flattenOne reg x).1 ++ rest) =
      Except.ok (x, rest) := by
  cases x with
  | leaf a => simp [flattenOne, unflOne]
  | listC xs => simp [flattenOne, unflOne, rtL reg xs rest]
  | tupleC xs => simp [flattenOne, unflOne, rtL reg xs rest]
  | dictC kvs => simp [flattenOne, unflOne, rtKV reg kvs rest]
  | dataC cls flds => simp [flattenOne, unflOne, rtKV reg flds rest]
  | customC tag meta cs =>
      by_cases h : Registry.mem reg tag
      · simp [flattenOne, unflOne, h, rtL reg cs rest]
      · simp [flattenOne, unflOne, h]

/-- Round trip for a sequence of children. -/
theorem rtL {α : Type} (reg : Registry) (xs : List (PyT α))
    (rest : List (PyT α)) :
    unflL reg (flattenL reg xs).2 ((flattenL reg xs).1 ++ rest) =
      Except.ok (xs, rest) := by
  cases xs with
  | nil => simp [flattenL, unflL]
  | cons x xs =>
      have h1 := rtOne reg x ((flattenL reg xs).1 ++ rest)
      have h2 := rtL reg xs rest
      simp [flattenL, unflL, List.append_assoc, h1, h2]

/-- Round trip for keyed children. -/
theorem rtKV {α : Type} (reg : Registry) (xs : List (String × PyT α))
    (rest : List (PyT α)) :
    unflKV reg (flattenKV reg xs).2 ((flattenKV reg xs).1 ++ rest) =
      Except.ok (xs, rest) := by
  cases xs with
  | nil => simp [flattenKV, unflKV]
  | cons kx xs =>
      have h1 := rtOne reg kx.2 ((flattenKV reg xs).1 ++ rest)
      have h2 := rtKV reg xs rest
      cases kx with
      | mk k x => simp [flattenKV, unflKV, List.append_assoc, h1, h2]

end

/-- C4.  Applying `unflatten_pytree` to the output of `flatten_pytree`
returns the original value, for every nesting of registered composite
types, dicts, lists, tuples and dataclasses, including empty and singleton
containers: the rebuilt value has the same container kind at every
position and the identical leaf objects in the same positions (structural
equality of the model value). -/
theorem flatten_unflatten_roundtrip {α : Type} (reg : Registry)
    (x : PyT α) :
    unflatten_pytree reg (flatten_pytree reg x).1 (flatten_pytree reg x).2 =
      Except.ok x := by
  have h := rtOne reg x []
  simp only [List.append_nil] at h
  simp [unflatten_pytree, flatten_pytree, h]

end Pytree

namespace Pytree

mutual

/-- Outcome of `_unflatten` on a fully registered treedef: with at least
`countSlots` leaves it succeeds and consumes exactly `countSlots` of them;
with fewer it raises `StopIteration`. -/
theorem unflStatus {α : Type} (reg : Registry) (td : TD)
    (h : wellReg reg td = true) (ls : List (PyT α)) :
    (countSlots td ≤ ls.length →
      ∃ v, unflOne reg td ls = Except.ok (v, ls.drop (countSlots td))) ∧
    (ls.length < countSlots td →
      unflOne reg td ls = Except.error UErr.stopIteration) := by
  cases td with
  | leafD =>
      cases ls with
      | nil => simp [unflOne, countSlots]
      | cons l rest => simp [unflOne, countSlots]
  | listD cs =>
      have hl := unflStatusL reg cs (by simpa [wellReg] using h) ls
      constructor
      · intro hle
        obtain ⟨vs, hv⟩ := hl.1 (by simpa [countSlots] using hle)
        exact ⟨PyT.listC vs, by simp [unflOne, countSlots, hv]⟩
      · intro hlt
        have := hl.2 (by simpa [countSlots] using hlt)
        simp [unflOne, countSlots, this]
  | tupleD cs =>
      have hl := unflStatusL reg cs (by simpa [wellReg] using h) ls
      constructor
      · intro hle
        obtain ⟨vs, hv⟩ := hl.1 (by simpa [countSlots] using hle)
        exact ⟨PyT.tupleC vs, by simp [unflOne, countSlots, hv]⟩
      · intro hlt
        have := hl.2 (by simpa [countSlots] using hlt)
        simp [unflOne, countSlots, this]
  | dictD kcs =>
      have hl := unflStatusKV reg kcs (by simpa [wellReg] using h) ls
      constructor
      · intro hle
        obtain ⟨vs, hv⟩ := hl.1 (by simpa [countSlots] using hle)
        exact ⟨PyT.dictC vs, by simp [unflOne, countSlots, hv]⟩
      · intro hlt
        have := hl.2 (by simpa [countSlots] using hlt)
        simp [unflOne, countSlots, this]
  | dataD cls kcs =>
      have hl := unflStatusKV reg kcs (by simpa [wellReg] using h) ls
      constructor
      · intro hle
        obtain ⟨vs, hv⟩ := hl.1 (by simpa [countSlots] using hle)
        exact ⟨PyT.dataC cls vs, by simp [unflOne, countSlots, hv]⟩
      · intro hlt
        have := hl.2 (by simpa [countSlots] using hlt)
        simp [unflOne, countSlots, this]
  | customD tag meta cs =>
      have hmem : Registry.mem reg tag = true := by
        have hh := h
        simp [wellReg, Bool.and_eq_true] at hh
        exact hh.1
      have hl := unflStatusL reg cs
        (by
          have hh := h
          simp [wellReg, Bool.and_eq_true] at hh
          exact hh.2) ls
      constructor
      · intro hle
        obtain ⟨vs, hv⟩ := hl.1 (by simpa [countSlots] using hle)
        exact ⟨PyT.customC tag meta vs, by simp [unflOne, countSlots, hmem, hv]⟩
      · intro hlt
        have := hl.2 (by simpa [countSlots] using hlt)
        simp [unflOne, countSlots, hmem, this]

/-- Outcome of `_unflatten` over a list of child treedefs. -/
theorem unflStatusL {α : Type} (reg : Registry) (cs : List TD)
    (h : wellRegL reg cs = true) (ls : List (PyT α)) :
    (countSlotsL cs ≤ ls.length →
      ∃ vs, unflL reg cs ls = Except.ok (vs, ls.drop (countSlotsL cs))) ∧
    (ls.length < countSlotsL cs →
      unflL reg cs ls = Except.error UErr.stopIteration) := by
  cases cs with
  | nil => simp [unflL, countSlotsL]
  | cons c cs =>
      have hc : wellReg reg c = true := by
        simp [wellRegL, Bool.and_eq_true] at h; exact h.1
      have hcs : wellRegL reg cs = true := by
        simp [wellRegL, Bool.and_eq_true] at h; exact h.2
      have h1 := unflStatus reg c hc ls
      constructor
      · intro hle
        have hle1 : countSlots c ≤ ls.length := by
          simp [countSlotsL] at hle; omega
        obtain ⟨v, hv⟩ := h1.1 hle1
        have h2 := unflStatusL reg cs hcs (ls.drop (countSlots c))
        have hle2 : countSlotsL cs ≤ (ls.drop (countSlots c)).length := by
          simp [List.length_drop]
          simp [countSlotsL] at hle
          omega
        obtain ⟨vs, hvs⟩ := h2.1 hle2
        refine ⟨v :: vs, ?_⟩
        simp [unflL, hv, hvs, countSlotsL, List.drop_drop]
      · intro hlt
        by_cases hle1 : countSlots c ≤ ls.length
        · obtain ⟨v, hv⟩ := h1.1 hle1
          have h2 := unflStatusL reg cs hcs (ls.drop (countSlots c))
          have hlt2 : (ls.drop (countSlots c)).length < countSlotsL cs := by
            simp [List.length_drop]
            simp [countSlotsL] at hlt
            omega
          have := h2.2 hlt2
          simp [unflL, hv, this]
        · have := h1.2 (by omega)
          simp [unflL, this]

/-- Outcome of `_unflatten` over keyed child treedefs. -/
theorem unflStatusKV {α : Type} (reg : Registry) (cs : List (String × TD))
    (h : wellRegKV reg cs = true) (ls : List (PyT α)) :
    (countSlotsKV cs ≤ ls.length →
      ∃ vs, unflKV reg cs ls = Except.ok (vs, ls.drop (countSlotsKV cs))) ∧
    (ls.length < countSlotsKV cs →
      unflKV reg cs ls = Except.error UErr.stopIteration) := by
  cases cs with
  | nil => simp [unflKV, countSlotsKV]
  | cons kc cs =>
      obtain ⟨k, c⟩ := kc
      have hc : wellReg reg c = true := by
        simp [wellRegKV, Bool.and_eq_true] at h; exact h.1
      have hcs : wellRegKV reg cs = true := by
        simp [wellRegKV, Bool.and_eq_true] at h; exact h.2
      have h1 := unflStatus reg c hc ls
      constructor
      · intro hle
        have hle1 : countSlots c ≤ ls.length := by
          simp [countSlotsKV] at hle; omega
        obtain ⟨v, hv⟩ := h1.1 hle1
        have h2 := unflStatusKV reg cs hcs (ls.drop (countSlots c))
        have hle2 : countSlotsKV cs ≤ (ls.drop (countSlots c)).length := by
          simp [List.length_drop]
          simp [countSlotsKV] at hle
          omega
        obtain ⟨vs, hvs⟩ := h2.1 hle2
        refine ⟨(k, v) :: vs, ?_⟩
        simp [unflKV, hv, hvs, countSlotsKV, List.drop_drop]
      · intro hlt
        by_cases hle1 : countSlots c ≤ ls.length
        · obtain ⟨v, hv⟩ := h1.1 hle1
          have h2 := unflStatusKV reg cs hcs (ls.drop (countSlots c))
          have hlt2 : (ls.drop (countSlots c)).length < countSlotsKV cs := by
            simp [List.length_drop]
            simp [countSlotsKV] at hlt
            omega
          have := h2.2 hlt2
          simp [unflKV, hv, this]
        · have := h1.2 (by omega)
          simp [unflKV, this]

end

end Pytree

namespace Pytree

/-- C7 counterexample.  The treedef `leaf` describes exactly one leaf slot,
but `unflatten_pytree` applied to two leaves succeeds silently (returning
the first leaf and ignoring the second) instead of failing: the claim that
every leaf-count mismatch, too many leaves included, raises an error is
false on the code. -/
theorem unflatten_extra_leaves_no_error :
    countSlots TD.leafD = 1 ∧
    [PyT.leaf (0 : Nat), PyT.leaf 1].length = 2 ∧
    unflatten_pytree ([] : Registry) [PyT.leaf (0 : Nat), PyT.leaf 1]
      TD.leafD = Except.ok (PyT.leaf 0) := by
  refine ⟨rfl, rfl, ?_⟩
  simp [unflatten_pytree, unflOne]

/-- C7 amended.  For a treedef whose composite tags are all registered:
too few leaves make `unflatten_pytree` fail (with the `StopIteration`
escaping from `next(it)`), while enough leaves — strictly more included —
make it succeed, extra leaves being silently ignored; independently, a
treedef that references an unregistered composite type fails with a
`TypeError` regardless of the leaves supplied. -/
theorem unflatten_mismatch_behavior {α : Type} (reg : Registry) (td : TD)
    (ls : List (PyT α)) (h : wellReg reg td = true) :
    (ls.length < countSlots td →
      unflatten_pytree reg ls td = Except.error UErr.stopIteration) ∧
    (countSlots td ≤ ls.length →
      ∃ v, unflatten_pytree reg ls td = Except.ok v) ∧
    (∀ (tag meta : Nat) (cs : List TD), Registry.mem reg tag = false →
      unflatten_pytree reg ls (TD.customD tag meta cs) =
        Except.error UErr.typeError) := by
  refine ⟨?_, ?_, ?_⟩
  · intro hlt
    have := (unflStatus reg td h ls).2 hlt
    simp [unflatten_pytree, this]
  · intro hle
    obtain ⟨v, hv⟩ := (unflStatus reg td h ls).1 hle
    exact ⟨v, by simp [unflatten_pytree, hv]⟩
  · intro tag meta cs hmem
    simp [unflatten_pytree, unflOne, hmem]

/-- Witness for the amended C7 theorem at concrete inputs: a two-slot
tuple treedef with one leaf raises `StopIteration`, with three leaves it
succeeds, and an unregistered composite treedef raises `TypeError`. -/
theorem unflatten_mismatch_behavior_witness :
    (unflatten_pytree ([] : Registry) [PyT.leaf (7 : Nat)]
      (TD.tupleD [TD.leafD, TD.leafD]) =
        Except.error UErr.stopIteration) ∧
    (∃ v, unflatten_pytree ([] : Registry)
      [PyT.leaf (7 : Nat), PyT.leaf 8, PyT.leaf 9]
      (TD.tupleD [TD.leafD, TD.leafD]) = Except.ok v) ∧
    (unflatten_pytree ([] : Registry) [PyT.leaf (7 : Nat)]
      (TD.customD 3 0 []) = Except.error UErr.typeError) := by
  have h1 := unflatten_mismatch_behavior ([] : Registry)
    (TD.tupleD [TD.leafD, TD.leafD]) [PyT.leaf (7 : Nat)] (by decide)
  have h2 := unflatten_mismatch_behavior ([] : Registry)
    (TD.tupleD [TD.leafD, TD.leafD])
    [PyT.leaf (7 : Nat), PyT.leaf 8, PyT.leaf 9] (by decide)
  have h3 := unflatten_mismatch_behavior ([] : Registry) TD.leafD
    [PyT.leaf (7 : Nat)] (by decide)
  refine ⟨h1.1 (by decide), h2.2.1 (by decide), h3.2.2 3 0 [] (by decide)⟩

end Pytree

namespace BBack

/-- Model of an n-dimensional numeric array: a shape and an index-tuple to
value map (rational entries stand for the float entries; only indices
within the shape are meaningful). -/
structure NDA where
  shape : List Nat
  data : List Nat → ℚ

/-- Embedding of `sum` from `mathino/src/functions/primitive_reduct.py`
restricted to the two call forms `broadcast_backward` uses
(`axis=<int>` with `keepdims` true or false): `lib.sum` along one axis,
keeping the summed dimension as size one when `keepdims` is set and
dropping it otherwise. -/
def sum (a : NDA) (axis : Nat) (keepdims : Bool) : NDA :=
  let n := a.shape.getD axis 0
  if keepdims then
    { shape := a.shape.set axis 1,
      data := fun idx => ∑ j ∈ Finset.range n, a.data (idx.set axis j) }
  else
    { shape := a.shape.eraseIdx axis,
      data := fun idx => ∑ j ∈ Finset.range n, a.data (idx.insertIdx axis j) }

/-- Embedding of the `while len(grad.shape) > len(x_shape)` loop of
`broadcast_backward` in `mathino/src/utils.py`: repeatedly sum over the
leading axis until the rank matches. -/
def dropLeading (g : NDA) (s : List Nat) : NDA :=
  if s.length < g.shape.length then dropLeading (sum g 0 false) s else g
  termination_by g.shape.length
  decreasing_by
    simp only [sum, if_neg (by simp : ¬(false = true)), List.length_eraseIdx]
    split <;> omega

/-- Embedding of `broadcast_backward` from `mathino/src/utils.py`: after the
leading-axis loop, walk `enumerate(zip(x_shape, grad.shape))` (the zip is
computed once, on the post-loop shape) and sum with `keepdims=True` every
axis where the target size is 1 but the gradient size is not. -/
def broadcast_backward (g : NDA) (s : List Nat) : NDA :=
  let g0 := dropLeading g s
  (List.enum (s.zip g0.shape)).foldl
    (fun acc p => if p.2.1 == 1 && !(p.2.2 == 1) then sum acc p.1 true else acc)
    g0

/-- Gradient rule of `add` from
`mathino/src/functions/primitive_arithmetic_and_basic_ops.py`: the
`grad_fn` returns `(broadcast_backward(g, x.shape),
broadcast_backward(g, y.shape))`. -/
def addGradFn (xsh ysh : List Nat) (g : NDA) : NDA × NDA :=
  (broadcast_backward g xsh, broadcast_backward g ysh)

end BBack

namespace BBack

/-- Evaluation of the leading-axis loop on a rank-2 gradient reduced to a
rank-1 target: one axis-0 sum is taken and the loop stops. -/
theorem dropLeading_34 (d : List Nat → ℚ) :
    dropLeading ⟨[3, 4], d⟩ [4] =
      ⟨[4], fun idx => ∑ i ∈ Finset.range 3, d (i :: idx)⟩ := by
  rw [dropLeading]
  norm_num [sum]
  rw [dropLeading]
  norm_num

/-- C3.  Broadcast reduction first sums over leading axes until the rank
matches, then keepdims-sums axes of target size one; consequently, for
`add(x, y)` with `x.shape = (3, 4)` and `y.shape = (4,)`, the gradient
`add`'s `grad_fn` returns for `y` is exactly the axis-0 (column) sum of
the output gradient: shape `(4,)` with entry `j` equal to
`g[0,j] + g[1,j] + g[2,j]`. -/
theorem add_broadcast_grad_for_y (d : List Nat → ℚ) (j : Nat) :
    (broadcast_backward ⟨[3, 4], d⟩ [4]).shape = [4] ∧
    (broadcast_backward ⟨[3, 4], d⟩ [4]).data [j] =
      ∑ i ∈ Finset.range 3, d [i, j] ∧
    (addGradFn [3, 4] [4] ⟨[3, 4], d⟩).2.shape = [4] ∧
    (addGradFn [3, 4] [4] ⟨[3, 4], d⟩).2.data [j] =
      ∑ i ∈ Finset.range 3, d [i, j] := by
  have hdl := dropLeading_34 d
  refine ⟨?_, ?_, ?_, ?_⟩ <;>
    simp [broadcast_backward, addGradFn, hdl]

end BBack

namespace OpWrap

/-- Model of one entry of the tuple a primitive forward returns: a plain
(non-callable, non-sequence) object such as an array, a tuple/list (the
shape the parents slot must have), or a callable (the shape the grad_fn
slot must have). -/
inductive Elem (V : Type) where
  | value (v : V)
  | seqP (vs : List V)
  | call (gid : Nat)

/-- Model of the full return value of a primitive forward function: either
not a tuple at all, or a tuple of entries. -/
inductive PyRet (V : Type) where
  | notTuple (v : V)
  | tup (elems : List (Elem V))

/-- Errors `MakeOP.__call__` raises while validating the forward output:
`TypeError("... must return a tuple")`,
`TypeError("parents must be tuple/list")`,
`ValueError("Function must return (out, parents, grad_fn) or (out,
grad_fn)")` and `TypeError("grad_fn must be callable.")`. -/
inductive DefErr where
  | typeErrNotTuple
  | typeErrParents
  | valErrArity
  | typeErrGradFn
  deriving Repr, DecidableEq

/-- Wrapper object built by `MakeOP.__init__` (`mathino/src/base.py`) and
`function.__init__` (`faketensor/src/base.py`): the constructor only
stores the forward function. -/
structure Wrapper (V : Type) where
  fn : List V → PyRet V

/-- Embedding of `MakeOP.__init__`: it performs no validation and cannot
fail, so the `Except` is always `ok` (the `Except` return type is kept so
that the claimed wrap-time failure is expressible at all). -/
def MakeOP_init {V : Type} (f : List V → PyRet V) :
    Except DefErr (Wrapper V) :=
  Except.ok ⟨f⟩

/-- Validated result of one wrapped call: the forward output, the parent
list (explicit from a 3-tuple, or the call arguments for a 2-tuple) and
the callable gradient function. -/
structure OkCall (V : Type) where
  out : Elem V
  parents : List V
  gradFn : Nat

/-- Embedding of the validation logic of `MakeOP.__call__`: run the
forward, then check tuple-ness, arity 2/3, that an explicit parents entry
is a tuple/list, and that grad_fn is callable — in source order. -/
def MakeOP_call {V : Type} (f : List V → PyRet V) (args : List V) :
    Except DefErr (OkCall V) :=
  match f args with
  | PyRet.notTuple _ => Except.error DefErr.typeErrNotTuple
  | PyRet.tup elems =>
    match elems with
    | [o, p, g] =>
        match p with
        | Elem.seqP vs =>
            match g with
            | Elem.call gid => Except.ok ⟨o, vs, gid⟩
            | _ => Except.error DefErr.typeErrGradFn
        | _ => Except.error DefErr.typeErrParents
    | [o, g] =>
        match g with
        | Elem.call gid => Except.ok ⟨o, args, gid⟩
        | _ => Except.error DefErr.typeErrGradFn
    | _ => Except.error DefErr.valErrArity

/-- Contract-violation test matching the four categories of the claim:
non-tuple return, arity other than 2/3, parents entry of a 3-tuple not a
tuple/list, grad_fn entry not callable. -/
def violatesB {V : Type} : PyRet V → Bool
  | PyRet.notTuple _ => true
  | PyRet.tup elems =>
    match elems with
    | [_, p, g] =>
        (match p with
         | Elem.seqP _ => false
         | _ => true) ||
        (match g with
         | Elem.call _ => false
         | _ => true)
    | [_, g] =>
        (match g with
         | Elem.call _ => false
         | _ => true)
    | _ => true

/-- C6 counterexample.  A forward that returns a non-tuple is a contract
violation, yet constructing its wrapper (`MakeOP.__init__`) succeeds —
no DefinitionError is raised at wrap time; the failure only happens at
invocation.  This refutes the claim that wrapping fails when the wrapper
is constructed, before any invocation. -/
theorem makeop_no_wrap_time_validation :
    violatesB (PyRet.notTuple (0 : ℚ)) = true ∧
    MakeOP_init (fun _ : List ℚ => PyRet.notTuple (0 : ℚ)) =
      Except.ok ⟨fun _ => PyRet.notTuple 0⟩ := by
  exact ⟨rfl, rfl⟩

/-- C6 amended.  Constructing the wrapper never validates and never fails;
instead, every invocation of the wrapped primitive validates the forward
output and fails with a TypeError/ValueError exactly when the output
violates the contract (non-tuple, wrong arity, non-sequence parents,
non-callable grad_fn) — so violations are never silent, but they surface
at call time, not at wrap time. -/
theorem makeop_call_time_validation {V : Type} (f : List V → PyRet V)
    (args : List V) :
    MakeOP_init f = Except.ok ⟨f⟩ ∧
    ((∃ e, MakeOP_call f args = Except.error e) ↔
      violatesB (f args) = true) := by
  refine ⟨rfl, ?_⟩
  constructor
  · rintro ⟨e, he⟩
    unfold MakeOP_call at he
    unfold violatesB
    cases hr : f args with
    | notTuple v => rfl
    | tup elems =>
        rw [hr] at he
        match elems with
        | [] => rfl
        | [a] => rfl
        | [o, g] =>
            cases g with
            | value v => rfl
            | seqP vs => rfl
            | call gid => simp at he
        | [o, p, g] =>
            cases p with
            | value v => rfl
            | seqP vs =>
                cases g with
                | value v2 => rfl
                | seqP vs2 => rfl
                | call gid => simp at he
            | call gid2 => rfl
        | a :: b :: c :: d :: rest => rfl
  · intro hv
    unfold MakeOP_call
    unfold violatesB at hv
    cases hr : f args with
    | notTuple v => exact ⟨DefErr.typeErrNotTuple, rfl⟩
    | tup elems =>
        rw [hr] at hv
        match elems with
        | [] => exact ⟨DefErr.valErrArity, rfl⟩
        | [a] => exact ⟨DefErr.valErrArity, rfl⟩
        | [o, g] =>
            cases g with
            | value v => exact ⟨DefErr.typeErrGradFn, rfl⟩
            | seqP vs => exact ⟨DefErr.typeErrGradFn, rfl⟩
            | call gid => simp at hv
        | [o, p, g] =>
            cases p with
            | value v => exact ⟨DefErr.typeErrParents, rfl⟩
            | seqP vs =>
                cases g with
                | value v2 => exact ⟨DefErr.typeErrGradFn, rfl⟩
                | seqP vs2 => exact ⟨DefErr.typeErrGradFn, rfl⟩
                | call gid => simp at hv
            | call gid2 => exact ⟨DefErr.typeErrParents, rfl⟩
        | a :: b :: c :: d :: rest => exact ⟨DefErr.valErrArity, rfl⟩

/-- Witness for the call-time-validation theorem at a concrete violating
forward: the non-tuple return makes the wrapped call error. -/
theorem makeop_call_time_validation_witness :
    ∃ e, MakeOP_call (fun _ : List ℚ => PyRet.notTuple (0 : ℚ)) [] =
      Except.error e :=
  (makeop_call_time_validation (fun _ : List ℚ => PyRet.notTuple (0 : ℚ))
    []).2.mpr rfl

end OpWrap

namespace Core

/-- Model of a Python value flowing through the mathino primitives, with
scalar (rank-0) numeric content.  `raw` is a backend numpy array: its
object identity and its buffer identity coincide, and it is neither an
NDarray nor a Variable.  `nd` is an NDarray/Variable wrapper: its own
object identity `objId`, the identity `buf` of the numpy buffer it wraps
(`id(x.np)`), the numeric value, and the `train` flag.  `pynone` is the
Python `None` that `grad` places in non-differentiable output slots. -/
inductive PyVal where
  | raw (buf : Nat) (v : ℚ)
  | nd (objId : Nat) (buf : Nat) (v : ℚ) (train : Bool)
  | pynone

/-- Numeric content (meaningless for `pynone`, which never reaches a
numeric operation in the modelled runs). -/
def PyVal.val : PyVal → ℚ
  | PyVal.raw _ v => v
  | PyVal.nd _ _ v _ => v
  | PyVal.pynone => 0

/-- Identity of the underlying numpy buffer. -/
def PyVal.buf : PyVal → Nat
  | PyVal.raw b _ => b
  | PyVal.nd _ b _ _ => b
  | PyVal.pynone => 0

/-- Embedding of `is_leaf` from `mathino/src/autograd/backward.py`: only an
NDarray/Variable whose `train` flag is set. -/
def is_leaf : PyVal → Bool
  | PyVal.nd _ _ _ t => t
  | _ => false

/-- Embedding of `_id` from `mathino/src/autograd/backward.py`:
`id(x.np)` for a trainable NDarray/Variable, `id(x)` otherwise (for a raw
numpy array the object is its own buffer). -/
def pyId : PyVal → Nat
  | PyVal.raw b _ => b
  | PyVal.nd o b _ t => if t then b else o
  | PyVal.pynone => 0

/-- Defunctionalized `grad_fn` closures appearing on the tape in the
modelled runs: `mulG x y` is the closure `multiply._fun` builds (capturing
the raw forward arguments `x`, `y`); `addG x y` likewise for `add`;
`scaleG c` is a custom unary primitive rule computing `c * g` with raw
backend arithmetic (no primitive call, nothing recorded), the shape of
e.g. `sign`'s or a user `custom_function`'s gradient rule. -/
inductive GradFn where
  | mulG (x y : PyVal)
  | addG (x y : PyVal)
  | scaleG (c : ℚ)

/-- Embedding of `Node` from `mathino/src/base.py`. -/
structure Node where
  out : PyVal
  parents : List PyVal
  grad_fn : GradFn

/-- Global mutable state of `mathino/src/base.py`: the tape stack (head of
the list is `TAPE_STACK[-1]`, the active tape), the `_RECORDING` flag, and
a fresh-identity counter standing for CPython object allocation. -/
structure St where
  tapeStack : List (List Node)
  recording : Bool
  nextId : Nat

/-- State monad over the interpreter state. -/
def M (α : Type) : Type := St → α × St

instance : Monad M where
  pure a := fun s => (a, s)
  bind m k := fun s => match m s with | (a, s1) => k a s1

/-- Runs a stateful computation from an initial state. -/
def M.run {α : Type} (m : M α) (s : St) : α × St := m s

/-- Unfolding of bind for the interpreter monad. -/
theorem M.bind_eval {α β : Type} (m : M α) (k : α → M β) (s : St) :
    (m >>= k) s = k (m s).1 (m s).2 := by
  show (match m s with | (a, s1) => k a s1) = k (m s).1 (m s).2
  rcases m s with ⟨a, s1⟩
  rfl

/-- Unfolding of pure for the interpreter monad. -/
theorem M.pure_eval {α : Type} (a : α) (s : St) :
    (pure a : M α) s = (a, s) := rfl

/-- Allocation of a fresh object/buffer identity. -/
def fresh : M Nat := fun s => (s.nextId, { s with nextId := s.nextId + 1 })

/-- Reads the state. -/
def getSt : M St := fun s => (s, s)

/-- Replaces the state. -/
def setSt (s2 : St) : M Unit := fun _ => ((), s2)

/-- Applies a function to the state. -/
def modifySt (f : St → St) : M Unit := fun s => ((), f s)

/-- Embedding of the append in `MakeOP.__call__`
(`t = active_tape(); if t is not None and _RECORDING: t.append(node)`):
appends to the top tape when the stack is nonempty and recording is on. -/
def appendNode (n : Node) : M Unit :=
  modifySt (fun s =>
    match s.tapeStack with
    | [] => s
    | t :: rest => if s.recording then { s with tapeStack := (t ++ [n]) :: rest } else s)

/-- Embedding of `as_nd` from `mathino/src/array.py`: builds a fresh
`NDarray` wrapper around the argument.  `as_ndarray` returns the same
backend buffer for a raw numpy array and for an NDarray's `.np`
(`lib.asarray` is the identity on a backend array), and
`NDarray.__init__` always sets `train = True`. -/
def as_nd (x : PyVal) : M PyVal := do
  let o ← fresh
  pure (PyVal.nd o x.buf x.val true)

/-- Embedding of `as_nd(0)` (`NDarray(0)`): `lib.asarray(0)` allocates a
fresh backend scalar buffer holding `0`, then the wrapper is built. -/
def as_ndZero : M PyVal := do
  let b ← fresh
  let o ← fresh
  pure (PyVal.nd o b 0 true)

/-- Embedding of `multiply` from
`mathino/src/functions/primitive_arithmetic_and_basic_ops.py` under
`MakeOP.__call__` (`function(_fun)(x, y)`): recording is suspended while
`_fun` runs; `_fun` computes `out = as_nd(lib.multiply(x, y))` (fresh
backend buffer holding the product), re-wraps both arguments as parents,
and closes `grad_fn` over the raw arguments; recording is restored, and
the node is appended if a tape is active and recording was on. -/
def multiply (x y : PyVal) : M PyVal := do
  let s0 ← getSt
  setSt { s0 with recording := false }
  let ob ← fresh
  let out ← as_nd (PyVal.raw ob (x.val * y.val))
  let p1 ← as_nd x
  let p2 ← as_nd y
  modifySt (fun s => { s with recording := s0.recording })
  appendNode { out := out, parents := [p1, p2], grad_fn := GradFn.mulG x y }
  pure out

/-- Embedding of `add` from the same module, same `MakeOP` protocol. -/
def add (x y : PyVal) : M PyVal := do
  let s0 ← getSt
  setSt { s0 with recording := false }
  let ob ← fresh
  let out ← as_nd (PyVal.raw ob (x.val + y.val))
  let p1 ← as_nd x
  let p2 ← as_nd y
  modifySt (fun s => { s with recording := s0.recording })
  appendNode { out := out, parents := [p1, p2], grad_fn := GradFn.addG x y }
  pure out

/-- Embedding of a user unary primitive in the `custom_function` /
`MakeOP` style: forward value `F x`, a single re-wrapped parent, and a
gradient rule `g -> (c * g,)` computed with raw backend arithmetic. -/
def unaryP (F : ℚ → ℚ) (c : ℚ) (x : PyVal) : M PyVal := do
  let s0 ← getSt
  setSt { s0 with recording := false }
  let ob ← fresh
  let out ← as_nd (PyVal.raw ob (F x.val))
  let p1 ← as_nd x
  modifySt (fun s => { s with recording := s0.recording })
  appendNode { out := out, parents := [p1], grad_fn := GradFn.scaleG c }
  pure out

/-- Interpreter for the recorded `grad_fn` closures.  For `multiply`, the
closure calls the `multiply` primitive on `(g, y)` and `(g, x)`
(`broadcast_backward` is the identity on rank-0 values: its while loop and
its for loop both run zero iterations).  For `add`, the closure is
`(broadcast_backward(g, x.shape), broadcast_backward(g, y.shape))`, i.e.
`(g, g)` on rank-0 values, calling no primitive.  For `scaleG`, raw
backend arithmetic allocates a fresh buffer and records nothing. -/
def appGradFn : GradFn → PyVal → M (List PyVal)
  | GradFn.mulG x y, g => do
      let g1 ← multiply g y
      let g2 ← multiply g x
      pure [g1, g2]
  | GradFn.addG _ _, g => pure [g, g]
  | GradFn.scaleG c, g => do
      let b ← fresh
      pure [PyVal.raw b (c * g.val)]

/-- Embedding of the `tape()` context manager of `mathino/src/base.py`
combined with a body: `TAPE_STACK.append([])` on entry and — exactly as in
the source, whose `finally` block is `pass` — nothing on exit: the tape
is not popped. -/
def withTape {α : Type} (body : M α) : M α := do
  modifySt (fun s => { s with tapeStack := [] :: s.tapeStack })
  body

/-- Gradient dictionary of `_backward`: a mapping from `_id` keys to
accumulated gradient values (insertion-ordered association list, like a
Python dict). -/
abbrev GradMap := List (Nat × PyVal)

/-- Dictionary lookup (`grads.get(k)`). -/
def lookupG (m : GradMap) (k : Nat) : Option PyVal :=
  (List.find? (fun p => p.1 == k) m).map Prod.snd

/-- Dictionary assignment (`grads[k] = v`). -/
def updateG (m : GradMap) (k : Nat) (v : PyVal) : GradMap :=
  if List.any m (fun p => p.1 == k) then
    List.map (fun p => if p.1 == k then (k, v) else p) m
  else
    m ++ [(k, v)]

/-- Embedding of `grads.get(pid, 0) + pg` from `_backward`.  The Python
`+` dispatches on the operand kinds: `0 + raw` and `raw + raw` are plain
backend adds producing a fresh raw array and recording nothing; whenever
an NDarray is involved (`0 + nd` via `__radd__`, `nd + _` via `__add__`,
`raw + nd` via numpy deferring to `__radd__` because of
`__array_priority__`), the `add` primitive runs — and, recording being on
during the reverse pass, appends a node to the active tape. -/
def accumAdd : Option PyVal → PyVal → M PyVal
  | none, PyVal.raw _b v => do
      let nb ← fresh
      pure (PyVal.raw nb (0 + v))
  | none, pg => do
      let z ← as_ndZero
      add z pg
  | some (PyVal.raw _b v), PyVal.raw _b2 v2 => do
      let nb ← fresh
      pure (PyVal.raw nb (v + v2))
  | some (PyVal.raw b v), pg => do
      let c ← as_nd (PyVal.raw b v)
      add c pg
  | some cur, pg => do
      let p ← as_nd pg
      add cur p

/-- Accumulation loop of `_backward`
(`for p, pg in zip(node.parents, parent_grads)`): skip `None` entries,
otherwise `grads[pid] = grads.get(pid, 0) + pg`. -/
def accumParents (grads : GradMap) : List (PyVal × Option PyVal) → M GradMap
  | [] => pure grads
  | (p, pg?) :: rest =>
      match pg? with
      | none => accumParents grads rest
      | some pg => do
          let v ← accumAdd (lookupG grads (pyId p)) pg
          accumParents (updateG grads (pyId p) v) rest

/-- One iteration of the reverse walk of `_backward`: skip the node if its
output has no accumulated gradient; otherwise run its `grad_fn`, block the
contributions of non-trainable parents (`parent_grads` gets `None` there),
and accumulate the rest. -/
def backStep (grads : GradMap) (n : Node) : M GradMap := do
  match lookupG grads (pyId n.out) with
  | none => pure grads
  | some g => do
      let pgs ← appGradFn n.grad_fn g
      let parent_grads := List.map
        (fun q => if is_leaf q.1 then some q.2 else none)
        (List.zip n.parents pgs)
      accumParents grads (List.zip n.parents parent_grads)

/-- The reverse walk over the (snapshot of the) tape records.  The Python
`reversed(tape_records)` iterator walks the indices that existed when it
was created, so nodes appended to the live tape by `grad_fn` calls during
the walk are never visited; iterating an immutable snapshot in reverse is
therefore exact. -/
def backLoop (ns : List Node) (grads : GradMap) : M GradMap :=
  match ns with
  | [] => pure grads
  | n :: rest => do
      let g2 ← backStep grads n
      backLoop rest g2

/-- Embedding of `_backward` from `mathino/src/autograd/backward.py`,
additionally reporting the records list it consumed (for stating which
tape the pass read): run `fun` under `tape()`, take
`TAPE_STACK[-1] if TAPE_STACK else []`, seed the gradient dict with
`ones_like(out)` (a fresh raw array) at `_id(out)`, and walk the records
in reverse. -/
def backwardT (f : PyVal → M PyVal) (x : PyVal) :
    M (PyVal × GradMap × List Node) := do
  let out ← withTape (f x)
  let s ← getSt
  let records := s.tapeStack.headD []
  let ob ← fresh
  let gfin ← backLoop records.reverse [(pyId out, PyVal.raw ob 1)]
  pure (out, gfin, records)

/-- Embedding of `_backward` proper: value and gradient dict. -/
def _backward (f : PyVal → M PyVal) (x : PyVal) : M (PyVal × GradMap) := do
  let r ← backwardT f x
  pure (r.1, r.2.1)

/-- Embedding of `grad(fun)` from `mathino/src/autograd/backward.py`
applied to a single argument: flatten gives the one leaf `x`; after
`_backward`, a trainable leaf reads its entry from the gradient dict
(with an always-evaluated `zeros_like` default), and a non-trainable leaf
gets the structural `None`. -/
def grad (f : PyVal → M PyVal) (x : PyVal) : M PyVal := do
  let r ← _backward f x
  if is_leaf x then do
    let zb ← fresh
    match lookupG r.2 (pyId x) with
    | some v => pure v
    | none => pure (PyVal.raw zb 0)
  else
    pure PyVal.pynone

/-- Embedding of the user function `lambda x: x * x`:
`NDarray.__mul__` re-wraps the right operand (`multiply(self,
as_nd(other))`) and calls the `multiply` primitive. -/
def square (x : PyVal) : M PyVal := do
  let y ← as_nd x
  multiply x y

/-- Embedding of `y = f(x) + g(x)` built from two independent unary
primitives and `NDarray.__add__` (`add(self, as_nd(other))`). -/
def fanout (F G : ℚ → ℚ) (c1 c2 : ℚ) (x : PyVal) : M PyVal := do
  let a ← unaryP F c1 x
  let b ← unaryP G c2 x
  let b2 ← as_nd b
  add a b2

/-- Initial interpreter state: empty tape stack, `_RECORDING = True`,
identities from 2 up are unallocated (the test leaf uses 0 and 1). -/
def initSt : St := { tapeStack := [], recording := true, nextId := 2 }

/-- The standard test leaf: an `NDarray` wrapper (object identity 0)
around a backend scalar buffer (identity 1) holding `v`, trainable. -/
def leafX (v : ℚ) : PyVal := PyVal.nd 0 1 v true

end Core

namespace Core

/-- A key has a dict entry exactly when it occurs among the stored keys. -/
theorem lookupG_isSome_mem (m : GradMap) (k : Nat) :
    (lookupG m k).isSome = true ↔ k ∈ List.map Prod.fst m := by
  induction m with
  | nil => simp [lookupG]
  | cons p m ih =>
      cases hb : (p.1 == k) with
      | true =>
          have : p.1 = k := by simpa using hb
          simp [lookupG, List.find?, hb, this]
      | false =>
          have : ¬ p.1 = k := by simpa using hb
          simp only [lookupG, List.find?, hb, List.map_cons, List.mem_cons]
          rw [← lookupG]
          constructor
          · intro h; exact Or.inr (ih.mp h)
          · intro h
            rcases h with h | h
            · exact absurd h.symm this
            · exact ih.mpr h

/-- Dict assignment adds at most the assigned key. -/
theorem updateG_keys (m : GradMap) (k k2 : Nat) (v : PyVal)
    (h : (lookupG (updateG m k v) k2).isSome = true) :
    k2 = k ∨ (lookupG m k2).isSome = true := by
  rw [lookupG_isSome_mem] at h
  rw [lookupG_isSome_mem]
  unfold updateG at h
  by_cases ha : List.any m (fun p => p.1 == k) = true
  · rw [if_pos ha] at h
    rw [List.map_map] at h
    rcases List.mem_map.mp h with ⟨p, hp, he⟩
    by_cases hk : (p.1 == k) = true
    · left
      simp only [Function.comp, hk, if_pos] at he
      exact he.symm
    · right
      simp only [Function.comp, hk] at he
      simp only [if_neg, Bool.not_eq_true] at he
      rw [← he]
      exact List.mem_map_of_mem Prod.fst hp
  · rw [if_neg ha] at h
    rw [List.map_append] at h
    rcases List.mem_append.mp h with h1 | h1
    · exact Or.inr h1
    · left
      simpa using h1

/-- Keys gained by the accumulation loop all come from pairs whose
gradient entry survived the `None` filter. -/
theorem accumParents_keys (ps : List (PyVal × Option PyVal)) :
    ∀ (grads : GradMap) (s : St) (k : Nat),
    (lookupG (((accumParents grads ps).run s).1) k).isSome = true →
    (lookupG grads k).isSome = true ∨
      ∃ p pg, (p, some pg) ∈ ps ∧ pyId p = k := by
  induction ps with
  | nil =>
      intro grads s k h
      left
      simpa [accumParents, M.run, M.pure_eval] using h
  | cons q ps ih =>
      intro grads s k h
      obtain ⟨p, pg?⟩ := q
      cases pg? with
      | none =>
          simp only [accumParents, M.run] at h
          rcases ih grads s k h with h1 | ⟨p2, pg2, hmem, hid⟩
          · exact Or.inl h1
          · exact Or.inr ⟨p2, pg2, List.mem_cons_of_mem _ hmem, hid⟩
      | some pg =>
          simp only [accumParents, M.run, M.bind_eval] at h
          rcases ih _ _ k h with h1 | ⟨p2, pg2, hmem, hid⟩
          · rcases updateG_keys _ _ _ _ h1 with he | h2
            · exact Or.inr ⟨p, pg, List.mem_cons_self _ _, he.symm⟩
            · exact Or.inl h2
          · exact Or.inr ⟨p2, pg2, List.mem_cons_of_mem _ hmem, hid⟩

/-- Keys gained by one reverse-walk step all belong to trainable leaf
parents of that node: the `None` blocking of non-trainable parents means
no other parent can acquire an entry, whatever its grad_fn returned. -/
theorem backStep_keys (n : Node) (grads : GradMap) (s : St) (k : Nat)
    (h : (lookupG (((backStep grads n).run s).1) k).isSome = true) :
    (lookupG grads k).isSome = true ∨
      ∃ p, p ∈ n.parents ∧ is_leaf p = true ∧ pyId p = k := by
  cases hl : lookupG grads (pyId n.out) with
  | none =>
      left
      unfold backStep at h
      rw [hl] at h
      simpa [M.run, M.pure_eval] using h
  | some g =>
      unfold backStep at h
      rw [hl] at h
      simp only [M.run, M.bind_eval] at h
      rcases accumParents_keys _ _ _ _ h with h1 | ⟨p, pg, hmem, hid⟩
      · exact Or.inl h1
      · right
        rcases List.mem_iff_getElem.mp hmem with ⟨i, hi, he⟩
        have hlen := hi
        simp only [List.length_zip, List.length_map] at hlen
        have hip : i < n.parents.length := by omega
        rw [List.getElem_zip] at he
        have hfst : n.parents[i] = p := congrArg Prod.fst he
        have hsnd := congrArg Prod.snd he
        simp only at hsnd
        rw [List.getElem_map] at hsnd
        have hiz : i < (List.zip n.parents
            (((appGradFn n.grad_fn g) s).1)).length := by
          rw [List.length_zip]
          omega
        rw [List.getElem_zip] at hsnd
        by_cases hleaf : is_leaf (n.parents[i]) = true
        · refine ⟨p, ?_, ?_, hid⟩
          · rw [← hfst]; exact List.getElem_mem hip
          · rw [← hfst]; exact hleaf
        · rw [if_neg hleaf] at hsnd
          exact absurd hsnd.symm (by simp)

/-- Keys gained by the whole reverse walk all belong to trainable leaf
parents of some visited node. -/
theorem backLoop_keys (ns : List Node) :
    ∀ (grads : GradMap) (s : St) (k : Nat),
    (lookupG (((backLoop ns grads).run s).1) k).isSome = true →
    (lookupG grads k).isSome = true ∨
      ∃ n, n ∈ ns ∧ ∃ p, p ∈ n.parents ∧ is_leaf p = true ∧ pyId p = k := by
  induction ns with
  | nil =>
      intro grads s k h
      left
      simpa [backLoop, M.run, M.pure_eval] using h
  | cons n ns ih =>
      intro grads s k h
      simp only [backLoop, M.run, M.bind_eval] at h
      rcases ih _ _ k h with h1 | ⟨n2, hmem, hp⟩
      · rcases backStep_keys n grads s k h1 with h2 | ⟨p, hp, hl, hid⟩
        · exact Or.inl h2
        · exact Or.inr ⟨n, List.mem_cons_self _ _, p, hp, hl, hid⟩
      · exact Or.inr ⟨n2, List.mem_cons_of_mem _ hmem, hp⟩

end Core

namespace Core

/-- Simp set that symbolically executes the interpreter. -/
theorem M.run_eval {α : Type} (m : M α) (s : St) : M.run m s = m s := rfl

/-- C5 counterexample.  A `tape()` scope entered from an empty stack and
exited normally leaves the stack holding its (empty) tape: the stack is
`[[]]`, not the pre-entry `[]` — the `finally` block of `tape()` does not
pop, so the scope's Tape is not removed on exit. -/
theorem tape_scope_not_popped :
    ((M.run (withTape (pure 0) : M Nat) initSt).2).tapeStack = [[]] ∧
    ([[]] : List (List Node)) ≠ ([] : List (List Node)) := by
  constructor
  · simp [withTape, modifySt, M.run_eval, M.bind_eval, M.pure_eval, initSt]
  · simp

/-- C5 amended.  A `tape()` scope pushes a fresh tape and, on exit, leaves
it on the stack on top of the previous stack (it is via this top entry —
`TAPE_STACK[-1]` — that the caller, e.g. `_backward`, retrieves the
records): after an empty scope the stack is `[] :: old`, and after a scope
recording one primitive call it is `[n] :: old` with `n` the recorded
node.  Nothing is ever popped. -/
theorem tape_scope_leaves_tape_on_stack (s : St) (x y : PyVal)
    (hrec : s.recording = true) :
    ((M.run (withTape (pure 0) : M Nat) s).2).tapeStack = [] :: s.tapeStack ∧
    ∃ n : Node,
      ((M.run (withTape (multiply x y)) s).2).tapeStack = [n] :: s.tapeStack := by
  constructor
  · simp [withTape, modifySt, M.run_eval, M.bind_eval, M.pure_eval]
  · refine ⟨{ out := PyVal.nd (s.nextId + 1) s.nextId (x.val * y.val) true,
              parents := [PyVal.nd (s.nextId + 2) x.buf x.val true,
                          PyVal.nd (s.nextId + 3) y.buf y.val true],
              grad_fn := GradFn.mulG x y }, ?_⟩
    simp [withTape, multiply, as_nd, fresh, getSt, setSt, modifySt, appendNode,
          M.run_eval, M.bind_eval, M.pure_eval, hrec, PyVal.buf, PyVal.val]

/-- Witness for the amended C5 theorem at a concrete state and concrete
operands. -/
theorem tape_scope_leaves_tape_on_stack_witness :
    ((M.run (withTape (pure 0) : M Nat) initSt).2).tapeStack =
      [] :: initSt.tapeStack ∧
    ∃ n : Node,
      ((M.run (withTape (multiply (leafX 1) (leafX 2))) initSt).2).tapeStack =
        [n] :: initSt.tapeStack :=
  tape_scope_leaves_tape_on_stack initSt (leafX 1) (leafX 2) rfl

set_option maxHeartbeats 4000000 in
/-- C2 counterexample.  Running the outer reverse pass of
`grad(grad(lambda x: x*x))` at `x = 1`: two tapes were pushed and none
popped, the tape pushed by the outer pass's own `tape()` scope (the
deepest stack entry) is still empty at the end, yet the records the outer
pass consumed are the five nodes logged on the topmost — inner — tape.
So the outer pass does not read the Tape of its own scope (which stayed
empty); it reads the nested Tape the inner pass pushed. -/
theorem nested_grad_outer_reads_inner_tape :
    ((M.run (backwardT (grad square) (leafX 1)) initSt).2).tapeStack.length
        = 2 ∧
    ((M.run (backwardT (grad square) (leafX 1)) initSt).2).tapeStack.getLast?
        = some [] ∧
    ((M.run (backwardT (grad square) (leafX 1)) initSt).1).2.2.length = 5 := by
  refine ⟨?_, ?_, ?_⟩ <;>
    simp [grad, _backward, backwardT, withTape, square, multiply, add,
          as_nd, as_ndZero, fresh, getSt, setSt, modifySt, appendNode,
          appGradFn, backLoop, backStep, accumParents, accumAdd, lookupG,
          updateG, pyId, is_leaf, PyVal.val, PyVal.buf, M.run_eval,
          M.bind_eval, M.pure_eval, leafX, initSt]

set_option maxHeartbeats 4000000 in
/-- C2 amended.  `grad(grad(lambda x: x*x))(x) = 2.0` for every `x`:
the inner reverse pass reads the nested Tape its own scope pushed, and
the outer pass afterwards reads the topmost stack entry — which, since
`tape()` never pops, is still that inner Tape (the outer scope's own Tape
stays empty below it).  The result is nevertheless exactly `2`, because
the inner pass recorded its gradient-computing primitive calls on that
same nested Tape, which is what differentiating the derivative
requires. -/
theorem nested_grad_second_derivative (v : ℚ) :
    (((M.run (grad (grad square) (leafX v)) initSt)).1).val = 2 ∧
    ((M.run (backwardT (grad square) (leafX v)) initSt).2).tapeStack.getLast?
        = some [] ∧
    ((M.run (backwardT (grad square) (leafX v)) initSt).1).2.2.length = 5 := by
  refine ⟨?_, ?_, ?_⟩ <;>
    simp [grad, _backward, backwardT, withTape, square, multiply, add,
          as_nd, as_ndZero, fresh, getSt, setSt, modifySt, appendNode,
          appGradFn, backLoop, backStep, accumParents, accumAdd, lookupG,
          updateG, pyId, is_leaf, PyVal.val, PyVal.buf, M.run_eval,
          M.bind_eval, M.pure_eval, leafX, initSt]
  norm_num

/-- C8.  Fan-out additivity: for `y = f(x) + g(x)` built from two
independent unary primitives with local gradient factors `c1` and `c2`,
the gradient `grad` returns for `x` is exactly `c1 + c2` — the reverse
pass adds the two per-path contributions into the same accumulator slot
instead of overwriting it. -/
theorem fanout_grad_additive (F G : ℚ → ℚ) (c1 c2 v : ℚ) :
    ((M.run (grad (fanout F G c1 c2) (leafX v)) initSt).1).val = c1 + c2 := by
  simp [grad, _backward, backwardT, withTape, fanout, multiply, add, unaryP,
        as_nd, as_ndZero, fresh, getSt, setSt, modifySt, appendNode,
        appGradFn, backLoop, backStep, accumParents, accumAdd, lookupG,
        updateG, pyId, is_leaf, PyVal.val, PyVal.buf, M.run_eval,
        M.bind_eval, M.pure_eval, leafX, initSt]
  ring

/-- C9.  Gradient slots are keyed by the backend buffer, not the wrapper:
(1) `as_nd` on an NDarray builds a fresh wrapper around the same buffer
with `train = True`; (2) any two trainable wrappers of the same buffer
have the same `_id`, hence every gradient-dict lookup through one equals
the lookup through the other; (3) concretely, a primitive records
`as_nd(x)` — a different wrapper object — as its parent, yet querying the
gradient through the original `x` returns the accumulated value `c`. -/
theorem rewrap_shares_gradient_slot :
    (∀ (o b : Nat) (v : ℚ) (t : Bool) (s : St),
        ((M.run (as_nd (PyVal.nd o b v t)) s).1) = PyVal.nd s.nextId b v true) ∧
    (∀ (o1 o2 b : Nat) (v1 v2 : ℚ),
        pyId (PyVal.nd o1 b v1 true) = pyId (PyVal.nd o2 b v2 true) ∧
        ∀ m : GradMap,
          lookupG m (pyId (PyVal.nd o1 b v1 true)) =
            lookupG m (pyId (PyVal.nd o2 b v2 true))) ∧
    (∀ (F : ℚ → ℚ) (c v : ℚ),
        ((M.run (grad (unaryP F c) (leafX v)) initSt).1).val = c) := by
  refine ⟨?_, ?_, ?_⟩
  · intro o b v t s
    simp [as_nd, fresh, M.run_eval, M.bind_eval, M.pure_eval, PyVal.buf,
          PyVal.val]
  · intro o1 o2 b v1 v2
    exact ⟨rfl, fun m => rfl⟩
  · intro F c v
    simp [grad, _backward, backwardT, withTape, unaryP,
          as_nd, as_ndZero, fresh, getSt, setSt, modifySt, appendNode,
          appGradFn, backLoop, backStep, accumParents, accumAdd, lookupG,
          updateG, pyId, is_leaf, PyVal.val, PyVal.buf, M.run_eval,
          M.bind_eval, M.pure_eval, leafX, initSt]

end Core

namespace Core

/-- C10.  Non-trainable parents never receive gradient: (1) any key that
appears in the gradient dict after the reverse walk either was present
before the walk or is the `_id` of a trainable-leaf parent of some
visited node — whatever the nodes' grad_fns returned, contributions of
parents that are not trainable leaves are turned into `None` and dropped;
(2) consequently every key of `_backward`'s final dict is the seed key
`_id(out)` or the `_id` of a trainable-leaf parent of a consumed record;
(3) `grad` puts the structural `None` in the output slot of an argument
that is not a trainable leaf (e.g. a frozen Variable). -/
theorem grad_blocks_nonleaf_parents :
    (∀ (ns : List Node) (grads : GradMap) (s : St) (k : Nat),
      (lookupG ((M.run (backLoop ns grads) s).1) k).isSome = true →
      (lookupG grads k).isSome = true ∨
        ∃ n, n ∈ ns ∧ ∃ p, p ∈ n.parents ∧ is_leaf p = true ∧ pyId p = k) ∧
    (∀ (f : PyVal → M PyVal) (x : PyVal) (s : St) (k : Nat),
      (lookupG (((M.run (backwardT f x) s).1).2.1) k).isSome = true →
      k = pyId (((M.run (backwardT f x) s).1).1) ∨
        ∃ n, n ∈ ((M.run (backwardT f x) s).1).2.2 ∧
          ∃ p, p ∈ n.parents ∧ is_leaf p = true ∧ pyId p = k) ∧
    (∀ (f : PyVal → M PyVal) (x : PyVal) (s : St),
      is_leaf x = false → ((M.run (grad f x) s).1) = PyVal.pynone) := by
  refine ⟨?_, ?_, ?_⟩
  · intro ns grads s k h
    exact backLoop_keys ns grads s k h
  · intro f x s k h
    simp only [backwardT, withTape, getSt, fresh, modifySt, M.run_eval,
      M.bind_eval, M.pure_eval] at h ⊢
    rcases backLoop_keys _ _ _ k h with h1 | ⟨n, hn, hp⟩
    · left
      rw [lookupG_isSome_mem] at h1
      simpa using h1
    · right
      exact ⟨n, List.mem_reverse.mp hn, hp⟩
  · intro f x s hx
    simp [grad, M.run_eval, M.bind_eval, M.pure_eval, hx]

/-- Witness for C10 at concrete inputs: an already-present key survives an
empty walk (first part); the seed key of a trivial `backwardT` run is the
output's `_id` (second part); and `grad` of the identity applied to a raw,
non-NDarray value — as well as to a frozen (train=False) wrapper — yields
the structural `None`. -/
theorem grad_blocks_nonleaf_parents_witness :
    ((lookupG ([(3, PyVal.raw 9 1)]) 3).isSome = true ∨
      ∃ n, n ∈ ([] : List Node) ∧
        ∃ p, p ∈ n.parents ∧ is_leaf p = true ∧ pyId p = 3) ∧
    ((M.run (grad (fun x => pure x) (PyVal.raw 5 1)) initSt).1)
        = PyVal.pynone ∧
    ((M.run (grad (fun x => pure x) (PyVal.nd 0 1 7 false)) initSt).1)
        = PyVal.pynone := by
  refine ⟨?_, ?_, ?_⟩
  · exact grad_blocks_nonleaf_parents.1 [] [(3, PyVal.raw 9 1)] initSt 3 rfl
  · exact grad_blocks_nonleaf_parents.2.2 (fun x => pure x)
      (PyVal.raw 5 1) initSt rfl
  · exact grad_blocks_nonleaf_parents.2.2 (fun x => pure x)
      (PyVal.nd 0 1 7 false) initSt rfl

end Core

namespace FT

/-- Model of a faketensor runtime value (an `NDarray` produced by a
primitive or supplied by the caller): its CPython object identity and its
scalar numeric content. -/
structure FTVal where
  objId : Nat
  val : ℚ

/-- The primitives invoked by the traced function `f(x, y) = x*x/y`,
standing for the per-call `function(_fun)` wrapper objects of
`faketensor/src/functions/math.py`; both wrap a `_fun(x, y)` of arity
two. -/
inductive Prim where
  | mulP
  | divP

/-- Errors surfacing during replay: calling a two-argument `_fun` with the
wrong number of positional arguments raises a `TypeError`; an
environment id with no binding raises a `KeyError`. -/
inductive PyErr where
  | typeError
  | keyError
  deriving Repr, DecidableEq

/-- Embedding of `StaticOp` from `faketensor/src/jit/base.py`. -/
structure StaticOp where
  prim : Prim
  in_ids : List Nat
  out_id : Nat

/-- Embedding of `JITRecorder`: object-identity to stable-id map, next
free id, and the recorded ops. -/
structure Recorder where
  env : List (Nat × Nat)
  next : Nat
  ops : List StaticOp

/-- Embedding of `StaticGraph` (the Frozen Graph artifact). -/
structure StaticGraph where
  ops : List StaticOp
  input_ids : List Nat
  output_id : Nat

/-- Global state of the faketensor JIT layer: the `_JIT_TRACING` flag, the
`_ACTIVE_RECORDER`, and a fresh-identity counter for allocated values. -/
structure St2 where
  tracing : Bool
  recorder : Option Recorder
  nextObj : Nat

/-- State monad over the JIT-layer state. -/
def MF (α : Type) : Type := St2 → α × St2

instance : Monad MF where
  pure a := fun s => (a, s)
  bind m k := fun s => match m s with | (a, s1) => k a s1

/-- Runs a JIT-layer computation. -/
def MF.run {α : Type} (m : MF α) (s : St2) : α × St2 := m s

/-- Unfolding of bind. -/
theorem MF.bind_apply {α β : Type} (m : MF α) (k : α → MF β) (s : St2) :
    (m >>= k) s = k (m s).1 (m s).2 := by
  show (match m s with | (a, s1) => k a s1) = k (m s).1 (m s).2
  rcases m s with ⟨a, s1⟩
  rfl

/-- Unfolding of pure. -/
theorem MF.pure_apply {α : Type} (a : α) (s : St2) :
    (pure a : MF α) s = (a, s) := rfl

/-- Embedding of `JITRecorder.id`: assign (or look up) the stable integer
id of a Python object identity. -/
def recId (r : Recorder) (k : Nat) : Nat × Recorder :=
  match List.find? (fun p => p.1 == k) r.env with
  | some p => (p.2, r)
  | none => (r.next, { r with env := r.env ++ [(k, r.next)], next := r.next + 1 })

/-- Embedding of `JITRecorder.record`: assign ids to the reported parents
and the output, and append the op. -/
def recRecord (r : Recorder) (p : Prim) (parentIds : List Nat) (outId : Nat) :
    Recorder :=
  let step : Recorder × List Nat → Nat → Recorder × List Nat := fun acc k =>
    let q := recId acc.1 k
    (q.2, acc.2 ++ [q.1])
  let acc := List.foldl step (r, []) parentIds
  let q := recId acc.1 outId
  { q.2 with ops := q.2.ops ++ [StaticOp.mk p acc.2 q.1] }

/-- Forward arity and computation of the wrapped `_fun`s: both `multiply`
and `divide` take exactly two positional arguments; any other argument
count raises a `TypeError` at the Python call, before the body runs. -/
def applyForward (p : Prim) (ins : List FTVal) : MF (Except PyErr FTVal) :=
  match ins with
  | [a, b] => fun s =>
      (Except.ok ⟨s.nextObj,
        match p with
        | Prim.mulP => a.val * b.val
        | Prim.divP => a.val / b.val⟩,
       { s with nextObj := s.nextObj + 1 })
  | _ => pure (Except.error PyErr.typeError)

/-- Embedding of the monkey-patched `function.__call__` installed by
`_install_jit_hook`: run the ordinary autograd call (here: the forward,
with its output validation; no tape is active in the JIT scenario), then,
if tracing with an active recorder, record the op with
`getattr(self, "last_parents", ())` — and since nothing in the code base
ever sets `last_parents`, the recorded parents are always the empty
tuple. -/
def primCall (p : Prim) (args : List FTVal) : MF (Except PyErr FTVal) := do
  let r ← applyForward p args
  match r with
  | Except.error e => pure (Except.error e)
  | Except.ok out => fun s =>
      match s.recorder with
      | some rec0 =>
          if s.tracing then
            (Except.ok out,
             { s with recorder := some (recRecord rec0 p [] out.objId) })
          else (Except.ok out, s)
      | none => (Except.ok out, s)

/-- The user function of the claim, `f(x, y) = x*x/y`, written with the
faketensor primitives. -/
def fXY (x y : FTVal) : MF (Except PyErr FTVal) := do
  let r1 ← primCall Prim.mulP [x, x]
  match r1 with
  | Except.error e => pure (Except.error e)
  | Except.ok t => primCall Prim.divP [t, y]

/-- Direct, non-JIT evaluation: the same primitives with no tracing
hook active. -/
def directEval (x y : FTVal) : MF (Except PyErr FTVal) := fXY x y

/-- Embedding of the cold path of `jit(fun).wrapped` for a fresh cache
key: enter `trace_mode` (fresh recorder, tracing on), run the function,
call `freeze_graph(args, out)`, restore the tracing flag, and return both
the traced output and the frozen graph. -/
def jitFirstCall (x y : FTVal) : MF (Except PyErr (FTVal × StaticGraph)) :=
  fun s0 =>
    let s1 : St2 := { s0 with tracing := true,
                              recorder := some ⟨[], 0, []⟩ }
    match fXY x y s1 with
    | (Except.error e, s2) =>
        (Except.error e, { s2 with tracing := s0.tracing })
    | (Except.ok out, s2) =>
        match s2.recorder with
        | none => (Except.error PyErr.keyError, { s2 with tracing := s0.tracing })
        | some r0 =>
            let q1 := recId r0 x.objId
            let q2 := recId q1.2 y.objId
            let q3 := recId q2.2 out.objId
            (Except.ok (out, ⟨q3.2.ops, [q1.1, q2.1], q3.1⟩),
             { s2 with tracing := s0.tracing, recorder := some q3.2 })

/-- Environment lookup during replay (`env[i]`); a missing id is a
`KeyError`. -/
def envGet (env : List (Nat × FTVal)) (k : Nat) : Except PyErr FTVal :=
  match List.find? (fun p => p.1 == k) env with
  | some p => Except.ok p.2
  | none => Except.error PyErr.keyError

/-- Collects the replay inputs of one op (`[env[i] for i in op.in_ids]`). -/
def envGets (env : List (Nat × FTVal)) : List Nat → Except PyErr (List FTVal)
  | [] => Except.ok []
  | k :: ks =>
      match envGet env k with
      | Except.error e => Except.error e
      | Except.ok v =>
          match envGets env ks with
          | Except.error e => Except.error e
          | Except.ok vs => Except.ok (v :: vs)

/-- Replay loop of `StaticGraph.__call__`: execute each recorded primitive
on the environment values named by its recorded input ids, binding the
result to its output id.  Recording is suppressed during replay
(`with no_record()`), so nothing is traced here. -/
def replayOps (env : List (Nat × FTVal)) :
    List StaticOp → MF (Except PyErr (List (Nat × FTVal)))
  | [] => pure (Except.ok env)
  | op :: ops => do
      match envGets env op.in_ids with
      | Except.error e => pure (Except.error e)
      | Except.ok ins => do
          let r ← applyForward op.prim ins
          match r with
          | Except.error e => pure (Except.error e)
          | Except.ok out => replayOps (env ++ [(op.out_id, out)]) ops

/-- Embedding of `StaticGraph.__call__` (the warm path of `jit`): bind the
new concrete arguments to the recorded input ids and replay. -/
def replayGraph (g : StaticGraph) (args : List FTVal) :
    MF (Except PyErr FTVal) := do
  let env := List.zip g.input_ids args
  let r ← replayOps env g.ops
  match r with
  | Except.error e => pure (Except.error e)
  | Except.ok envFin => pure (envGet envFin g.output_id)

/-- Initial JIT-layer state: not tracing, no recorder, ids from 100 up
free. -/
def initFT : St2 := { tracing := false, recorder := none, nextObj := 100 }

end FT

namespace FT

/-- C1 (code bug).  For `f(x, y) = x*x/y`: direct evaluation at `(5, 2)`
gives `25/2`, and the first, tracing JIT call at `(3, 4)` gives the
correct `9/4`; but every op the trace records carries an empty input-id
list (the hook reads `self.last_parents`, which no code ever sets, so
`getattr` always yields `()`), and therefore the second call with the
same structural cache key replays each primitive with zero arguments and
raises a `TypeError` instead of returning `25/2`. -/
theorem jit_second_call_replay_fails :
    (∃ v : FTVal, ((MF.run (directEval ⟨2, 5⟩ ⟨3, 2⟩) initFT).1) =
        Except.ok v ∧ v.val = 25 / 2) ∧
    (∃ (v : FTVal) (g : StaticGraph),
      ((MF.run (jitFirstCall ⟨0, 3⟩ ⟨1, 4⟩) initFT).1) = Except.ok (v, g) ∧
      v.val = 9 / 4 ∧
      (∀ op ∈ g.ops, op.in_ids = ([] : List Nat)) ∧
      ((MF.run (replayGraph g [⟨2, 5⟩, ⟨3, 2⟩]) initFT).1) =
        Except.error PyErr.typeError) := by
  constructor
  · refine ⟨⟨101, 5 * 5 / 2⟩, ?_, by norm_num⟩
    simp [directEval, fXY, primCall, applyForward, initFT,
          MF.run, MF.bind_apply, MF.pure_apply]
  · refine ⟨⟨101, 3 * 3 / 4⟩,
      ⟨[⟨Prim.mulP, [], 0⟩, ⟨Prim.divP, [], 1⟩], [2, 3], 1⟩, ?_, by norm_num,
      ?_, ?_⟩
    · simp [jitFirstCall, fXY, primCall, applyForward, initFT, recId,
            recRecord, MF.run, MF.bind_apply, MF.pure_apply]
    · intro op hop
      simp only [List.mem_cons, List.not_mem_nil, or_false] at hop
      rcases hop with h | h <;> rw [h]
    · simp [replayGraph, replayOps, envGets, envGet, applyForward, initFT,
            MF.run, MF.bind_apply, MF.pure_apply]

end FT
